import Mathlib

/-!
Verification of the Contour ShuttlePro report decoder.

Shallow embedding of the report decoder and state tracker of
`src/main.rs` (`SystemState::update` and the associated data types),
together with theorems settling the specification claims.

Machine integers are modelled as follows: `u8` and `u16` fields become
`Nat` (with explicit `< 256` / `< 65536` bounds supplied as hypotheses
where the arithmetic depends on them), `i8` becomes `Int`, and the
`i16` arithmetic of the wheel-delta computation becomes `Int`
arithmetic (exact for the `u8`-ranged operands that can ever occur).
-/

/-- Embedding of `struct ContourHidEvent` (main.rs:31-37):
`{ id: u8, jog: i8, wheel: u8, _fill: u8, keys: u16 }`. -/
structure ContourHidEvent where
  id : Nat
  jog : Int
  wheel : Nat
  fill : Nat
  keys : Nat
deriving DecidableEq

/-- Embedding of `struct SystemState` (main.rs:40-43):
the last-seen report plus the collaborator-owned `scroll_zoom` index. -/
structure SystemState where
  last : ContourHidEvent
  scroll_zoom : Nat
deriving DecidableEq

/-- Embedding of `enum ContourEvents` (main.rs:46-52). -/
inductive ContourEvents where
  | Jog : Int → ContourEvents
  | WheelLeft : ContourEvents
  | WheelRight : ContourEvents
  | ButtonUp : Nat → ContourEvents
  | ButtonDown : Nat → ContourEvents
deriving DecidableEq

/-- The wheel re-basing step (main.rs:63-65): when the stored report has
`id != 0`, its `wheel` field is overwritten with the new wheel value
before any comparison. -/
def rebase (s : SystemState) (new : ContourHidEvent) : ContourHidEvent :=
  if s.last.id ≠ 0 then { s.last with wheel := new.wheel } else s.last

/-- The jog edge (main.rs:67-69): emit `Jog(new.jog)` when the jog value
changed. -/
def jogEvents (last new : ContourHidEvent) : List ContourEvents :=
  if last.jog ≠ new.jog then [ContourEvents.Jog new.jog] else []

/-- The corrected wheel delta (main.rs:71-77): `new.wheel as i16 -
last.wheel as i16`, then `-= 256` when `> 128`, then `+= 256` when
`< -128`, the two corrections applied in that order to the running
value. -/
def wheelDelta (last new : Nat) : Int :=
  let d0 : Int := (new : Int) - (last : Int)
  let d1 : Int := if d0 > 128 then d0 - 256 else d0
  if d1 < -128 then d1 + 256 else d1

/-- The wheel edge (main.rs:70-83): when the (re-based) wheel value
changed, emit `WheelLeft` for a negative corrected delta, else
`WheelRight`. -/
def wheelEvents (last new : ContourHidEvent) : List ContourEvents :=
  if last.wheel ≠ new.wheel then
    if wheelDelta last.wheel new.wheel < 0 then [ContourEvents.WheelLeft]
    else [ContourEvents.WheelRight]
  else []

/-- One iteration of the button loop body (main.rs:86-96) at bit `k`:
`0→1` pushes `ButtonDown(k)`, `1→0` pushes `ButtonUp(k)`, otherwise
nothing. `keys & (1 << k) != 0` is `Nat.testBit keys k`. -/
def buttonStep (lastKeys newKeys : Nat) (k : Nat) : List ContourEvents :=
  match lastKeys.testBit k, newKeys.testBit k with
  | false, true => [ContourEvents.ButtonDown k]
  | true, false => [ContourEvents.ButtonUp k]
  | _, _ => []

/-- The button loop (main.rs:85-97): `for k in 0u16..15`, in increasing
order, appending the events of `buttonStep`. -/
def buttonEvents (lastKeys newKeys : Nat) : List ContourEvents :=
  (List.range 15).flatMap (buttonStep lastKeys newKeys)

/-- The button edge block (main.rs:84-98): the loop runs only when the
`keys` bitmasks differ. -/
def keyEvents (last new : ContourHidEvent) : List ContourEvents :=
  if last.keys ≠ new.keys then buttonEvents last.keys new.keys else []

/-- Embedding of `SystemState::update` (main.rs:61-102): re-base the
stored wheel, emit jog, wheel and button events in that push order,
store the new report in its entirety, and return the event list. -/
def update (s : SystemState) (new : ContourHidEvent) : SystemState × List ContourEvents :=
  let last := rebase s new
  ({ last := new, scroll_zoom := s.scroll_zoom },
    jogEvents last new ++ wheelEvents last new ++ keyEvents last new)

/-- Embedding of the initializer of `GLOBAL_STATE` (main.rs:170-179):
the sentinel previous report `id = 0xFF`, all other fields zero, and
`scroll_zoom = 0`. -/
def GLOBAL_STATE : SystemState :=
  { scroll_zoom := 0,
    last := { id := 0xFF, jog := 0, wheel := 0, fill := 0, keys := 0 } }

/-- Classifier: is this event a wheel-direction event? -/
def isWheelEvent : ContourEvents → Bool
  | ContourEvents.WheelLeft => true
  | ContourEvents.WheelRight => true
  | _ => false

/-- Classifier: is this event a jog event? -/
def isJogEvent : ContourEvents → Bool
  | ContourEvents.Jog _ => true
  | _ => false

/-- Classifier: is this event a button event? -/
def isButtonEvent : ContourEvents → Bool
  | ContourEvents.ButtonUp _ => true
  | ContourEvents.ButtonDown _ => true
  | _ => false

/-- The button index carried by a button event, if any. -/
def buttonIndex : ContourEvents → Option Nat
  | ContourEvents.ButtonUp k => some k
  | ContourEvents.ButtonDown k => some k
  | _ => none

/-! ## Helper lemmas -/

theorem rebase_id (s : SystemState) (new : ContourHidEvent) :
    (rebase s new).id = s.last.id := by
  unfold rebase; split <;> rfl

theorem rebase_jog (s : SystemState) (new : ContourHidEvent) :
    (rebase s new).jog = s.last.jog := by
  unfold rebase; split <;> rfl

theorem rebase_keys (s : SystemState) (new : ContourHidEvent) :
    (rebase s new).keys = s.last.keys := by
  unfold rebase; split <;> rfl

theorem rebase_self (s : SystemState) : rebase s s.last = s.last := by
  unfold rebase; split <;> rfl

theorem rebase_wheel_of_id_ne (s : SystemState) (new : ContourHidEvent)
    (h : s.last.id ≠ 0) : (rebase s new).wheel = new.wheel := by
  unfold rebase; rw [if_pos h]

theorem rebase_of_id_eq (s : SystemState) (new : ContourHidEvent)
    (h : s.last.id = 0) : rebase s new = s.last := by
  unfold rebase; rw [if_neg (by simp [h])]

theorem update_eq (s : SystemState) (new : ContourHidEvent) :
    update s new =
      ({ last := new, scroll_zoom := s.scroll_zoom },
        jogEvents (rebase s new) new ++ wheelEvents (rebase s new) new
          ++ keyEvents (rebase s new) new) := rfl

theorem flatMap_buttonStep_eq (a b : Nat) (l : List Nat) :
    l.flatMap (buttonStep a b) =
      (l.filter (fun k => a.testBit k != b.testBit k)).map
        (fun k => if b.testBit k then ContourEvents.ButtonDown k
                  else ContourEvents.ButtonUp k) := by
  induction l with
  | nil => rfl
  | cons x xs ih =>
    rw [List.flatMap_cons, List.filter_cons]
    cases ha : a.testBit x <;> cases hb : b.testBit x <;>
      simp [buttonStep, ha, hb, ih]

theorem buttonEvents_eq (a b : Nat) :
    buttonEvents a b =
      ((List.range 15).filter (fun k => a.testBit k != b.testBit k)).map
        (fun k => if b.testBit k then ContourEvents.ButtonDown k
                  else ContourEvents.ButtonUp k) :=
  flatMap_buttonStep_eq a b (List.range 15)

theorem isWheelEvent_eq_false_of_mem_jogEvents (last new : ContourHidEvent) :
    ∀ e ∈ jogEvents last new, isWheelEvent e = false := by
  unfold jogEvents; split <;> simp [isWheelEvent]

theorem isWheelEvent_eq_false_of_mem_keyEvents (last new : ContourHidEvent) :
    ∀ e ∈ keyEvents last new, isWheelEvent e = false := by
  unfold keyEvents
  split
  · rw [buttonEvents_eq]
    intro e he
    rcases List.mem_map.mp he with ⟨k, _, rfl⟩
    split <;> rfl
  · simp

theorem isWheelEvent_eq_true_of_mem_wheelEvents (last new : ContourHidEvent) :
    ∀ e ∈ wheelEvents last new, isWheelEvent e = true := by
  unfold wheelEvents
  split
  · split <;> simp [isWheelEvent]
  · simp

theorem isJogEvent_eq_true_of_mem_jogEvents (last new : ContourHidEvent) :
    ∀ e ∈ jogEvents last new, isJogEvent e = true := by
  unfold jogEvents; split <;> simp [isJogEvent]

theorem isJogEvent_eq_false_of_mem_wheelEvents (last new : ContourHidEvent) :
    ∀ e ∈ wheelEvents last new, isJogEvent e = false := by
  unfold wheelEvents
  split
  · split <;> simp [isJogEvent]
  · simp

theorem isJogEvent_eq_false_of_mem_keyEvents (last new : ContourHidEvent) :
    ∀ e ∈ keyEvents last new, isJogEvent e = false := by
  unfold keyEvents
  split
  · rw [buttonEvents_eq]
    intro e he
    rcases List.mem_map.mp he with ⟨k, _, rfl⟩
    split <;> rfl
  · simp

theorem isButtonEvent_eq_true_of_mem_keyEvents (last new : ContourHidEvent) :
    ∀ e ∈ keyEvents last new, isButtonEvent e = true := by
  unfold keyEvents
  split
  · rw [buttonEvents_eq]
    intro e he
    rcases List.mem_map.mp he with ⟨k, _, rfl⟩
    split <;> rfl
  · simp

theorem filter_wheel_update (s : SystemState) (new : ContourHidEvent) :
    (update s new).2.filter isWheelEvent = wheelEvents (rebase s new) new := by
  have hj : (jogEvents (rebase s new) new).filter isWheelEvent = [] :=
    List.filter_eq_nil_iff.mpr (fun e he => by
      simp [isWheelEvent_eq_false_of_mem_jogEvents _ _ e he])
  have hk : (keyEvents (rebase s new) new).filter isWheelEvent = [] :=
    List.filter_eq_nil_iff.mpr (fun e he => by
      simp [isWheelEvent_eq_false_of_mem_keyEvents _ _ e he])
  have hw : (wheelEvents (rebase s new) new).filter isWheelEvent
      = wheelEvents (rebase s new) new :=
    List.filter_eq_self.mpr (isWheelEvent_eq_true_of_mem_wheelEvents _ _)
  rw [update_eq]
  simp only [List.filter_append, hj, hk, hw]
  simp

theorem filter_jog_update (s : SystemState) (new : ContourHidEvent) :
    (update s new).2.filter isJogEvent = jogEvents (rebase s new) new := by
  have hw : (wheelEvents (rebase s new) new).filter isJogEvent = [] :=
    List.filter_eq_nil_iff.mpr (fun e he => by
      simp [isJogEvent_eq_false_of_mem_wheelEvents _ _ e he])
  have hk : (keyEvents (rebase s new) new).filter isJogEvent = [] :=
    List.filter_eq_nil_iff.mpr (fun e he => by
      simp [isJogEvent_eq_false_of_mem_keyEvents _ _ e he])
  have hj : (jogEvents (rebase s new) new).filter isJogEvent
      = jogEvents (rebase s new) new :=
    List.filter_eq_self.mpr (isJogEvent_eq_true_of_mem_jogEvents _ _)
  rw [update_eq]
  simp only [List.filter_append, hw, hk, hj]
  simp

theorem wheelEvents_rebase_eq_nil (s : SystemState) (new : ContourHidEvent)
    (h : new.wheel = s.last.wheel) : wheelEvents (rebase s new) new = [] := by
  unfold rebase wheelEvents
  split
  · rw [if_neg (by simp)]
  · rw [if_neg (by simp [h])]

theorem update_last_eq (s : SystemState) : update s s.last = (s, []) := by
  rw [update_eq, rebase_self]
  unfold jogEvents wheelEvents keyEvents
  simp

theorem down_mem_buttonStep (a b j k : Nat) :
    ContourEvents.ButtonDown k ∈ buttonStep a b j ↔
      j = k ∧ a.testBit j = false ∧ b.testBit j = true := by
  unfold buttonStep
  cases ha : a.testBit j <;> cases hb : b.testBit j <;> simp [ha, hb, eq_comm]

theorem up_mem_buttonStep (a b j k : Nat) :
    ContourEvents.ButtonUp k ∈ buttonStep a b j ↔
      j = k ∧ a.testBit j = true ∧ b.testBit j = false := by
  unfold buttonStep
  cases ha : a.testBit j <;> cases hb : b.testBit j <;> simp [ha, hb, eq_comm]

theorem down_mem_buttonEvents (a b k : Nat) :
    ContourEvents.ButtonDown k ∈ buttonEvents a b ↔
      k < 15 ∧ a.testBit k = false ∧ b.testBit k = true := by
  unfold buttonEvents
  rw [List.mem_flatMap]
  constructor
  · rintro ⟨j, hj, hmem⟩
    rcases (down_mem_buttonStep a b j k).mp hmem with ⟨rfl, h⟩
    exact ⟨List.mem_range.mp hj, h⟩
  · rintro ⟨hk, h⟩
    exact ⟨k, List.mem_range.mpr hk, (down_mem_buttonStep a b k k).mpr ⟨rfl, h⟩⟩

theorem up_mem_buttonEvents (a b k : Nat) :
    ContourEvents.ButtonUp k ∈ buttonEvents a b ↔
      k < 15 ∧ a.testBit k = true ∧ b.testBit k = false := by
  unfold buttonEvents
  rw [List.mem_flatMap]
  constructor
  · rintro ⟨j, hj, hmem⟩
    rcases (up_mem_buttonStep a b j k).mp hmem with ⟨rfl, h⟩
    exact ⟨List.mem_range.mp hj, h⟩
  · rintro ⟨hk, h⟩
    exact ⟨k, List.mem_range.mpr hk, (up_mem_buttonStep a b k k).mpr ⟨rfl, h⟩⟩

theorem down_mem_keyEvents (s : SystemState) (new : ContourHidEvent) (k : Nat) :
    ContourEvents.ButtonDown k ∈ keyEvents (rebase s new) new ↔
      k < 15 ∧ s.last.keys.testBit k = false ∧ new.keys.testBit k = true := by
  unfold keyEvents
  rw [rebase_keys]
  split
  · exact down_mem_buttonEvents _ _ _
  · rename_i hne
    have heq : s.last.keys = new.keys := not_not.mp hne
    constructor
    · intro h; exact absurd h (List.not_mem_nil _)
    · rintro ⟨-, h1, h2⟩
      rw [heq, h2] at h1
      cases h1

theorem up_mem_keyEvents (s : SystemState) (new : ContourHidEvent) (k : Nat) :
    ContourEvents.ButtonUp k ∈ keyEvents (rebase s new) new ↔
      k < 15 ∧ s.last.keys.testBit k = true ∧ new.keys.testBit k = false := by
  unfold keyEvents
  rw [rebase_keys]
  split
  · exact up_mem_buttonEvents _ _ _
  · rename_i hne
    have heq : s.last.keys = new.keys := not_not.mp hne
    constructor
    · intro h; exact absurd h (List.not_mem_nil _)
    · rintro ⟨-, h1, h2⟩
      rw [heq, h2] at h1
      cases h1

theorem down_not_mem_jogEvents (last new : ContourHidEvent) (k : Nat) :
    ContourEvents.ButtonDown k ∉ jogEvents last new := by
  unfold jogEvents; split <;> simp

theorem down_not_mem_wheelEvents (last new : ContourHidEvent) (k : Nat) :
    ContourEvents.ButtonDown k ∉ wheelEvents last new := by
  unfold wheelEvents
  split
  · split <;> simp
  · simp

theorem up_not_mem_jogEvents (last new : ContourHidEvent) (k : Nat) :
    ContourEvents.ButtonUp k ∉ jogEvents last new := by
  unfold jogEvents; split <;> simp

theorem up_not_mem_wheelEvents (last new : ContourHidEvent) (k : Nat) :
    ContourEvents.ButtonUp k ∉ wheelEvents last new := by
  unfold wheelEvents
  split
  · split <;> simp
  · simp

theorem down_mem_update (s : SystemState) (new : ContourHidEvent) (k : Nat) :
    ContourEvents.ButtonDown k ∈ (update s new).2 ↔
      k < 15 ∧ s.last.keys.testBit k = false ∧ new.keys.testBit k = true := by
  rw [update_eq]
  simp only [List.mem_append]
  constructor
  · rintro ((h | h) | h)
    · exact absurd h (down_not_mem_jogEvents _ _ _)
    · exact absurd h (down_not_mem_wheelEvents _ _ _)
    · exact (down_mem_keyEvents s new k).mp h
  · intro h
    exact Or.inr ((down_mem_keyEvents s new k).mpr h)

theorem up_mem_update (s : SystemState) (new : ContourHidEvent) (k : Nat) :
    ContourEvents.ButtonUp k ∈ (update s new).2 ↔
      k < 15 ∧ s.last.keys.testBit k = true ∧ new.keys.testBit k = false := by
  rw [update_eq]
  simp only [List.mem_append]
  constructor
  · rintro ((h | h) | h)
    · exact absurd h (up_not_mem_jogEvents _ _ _)
    · exact absurd h (up_not_mem_wheelEvents _ _ _)
    · exact (up_mem_keyEvents s new k).mp h
  · intro h
    exact Or.inr ((up_mem_keyEvents s new k).mpr h)

theorem filterMap_buttonIndex_flatMap (a b : Nat) (l : List Nat) :
    (l.flatMap (buttonStep a b)).filterMap buttonIndex =
      l.filter (fun k => a.testBit k != b.testBit k) := by
  induction l with
  | nil => rfl
  | cons x xs ih =>
    rw [List.flatMap_cons, List.filterMap_append, List.filter_cons, ih]
    cases ha : a.testBit x <;> cases hb : b.testBit x <;>
      simp [buttonStep, buttonIndex, ha, hb]

theorem filterMap_buttonIndex_jogEvents (last new : ContourHidEvent) :
    (jogEvents last new).filterMap buttonIndex = [] := by
  unfold jogEvents; split <;> simp [buttonIndex]

theorem filterMap_buttonIndex_wheelEvents (last new : ContourHidEvent) :
    (wheelEvents last new).filterMap buttonIndex = [] := by
  unfold wheelEvents
  split
  · split <;> simp [buttonIndex]
  · simp

theorem filterMap_buttonIndex_keyEvents (last new : ContourHidEvent) :
    (keyEvents last new).filterMap buttonIndex =
      if last.keys ≠ new.keys then
        (List.range 15).filter (fun k => last.keys.testBit k != new.keys.testBit k)
      else [] := by
  unfold keyEvents buttonEvents
  split
  · exact filterMap_buttonIndex_flatMap _ _ _
  · rfl

theorem pairwise_filterMap_keyEvents (last new : ContourHidEvent) :
    List.Pairwise (· < ·) ((keyEvents last new).filterMap buttonIndex) := by
  rw [filterMap_buttonIndex_keyEvents]
  split
  · exact (List.pairwise_lt_range 15).filter _
  · exact List.Pairwise.nil

theorem filterMap_buttonIndex_update (s : SystemState) (new : ContourHidEvent) :
    (update s new).2.filterMap buttonIndex =
      (keyEvents (rebase s new) new).filterMap buttonIndex := by
  rw [update_eq]
  simp only [List.filterMap_append, filterMap_buttonIndex_jogEvents,
    filterMap_buttonIndex_wheelEvents]
  simp

theorem keys_ne_xor (a m : Nat) (hm : m ≠ 0) : a ≠ a ^^^ m := by
  intro h
  have hz : a ^^^ a = a ^^^ (a ^^^ m) := by rw [← h]
  rw [Nat.xor_self, ← Nat.xor_assoc, Nat.xor_self, Nat.zero_xor] at hz
  exact hm hz.symm

theorem buttonEvents_xor_bit3 (a : Nat) (h3 : a.testBit 3 = false) :
    buttonEvents a (a ^^^ 8) = [ContourEvents.ButtonDown 3] := by
  rw [buttonEvents_eq]
  have hcong : ∀ k ∈ List.range 15,
      (a.testBit k != (a ^^^ 8).testBit k) = (8 : Nat).testBit k := by
    intro k _
    rw [Nat.testBit_xor]
    cases hx : a.testBit k <;> cases hy : (8 : Nat).testBit k <;> simp [hx, hy]
  rw [List.filter_congr hcong]
  have hfil : (List.range 15).filter (fun k => (8 : Nat).testBit k) = [3] := by decide
  rw [hfil]
  have hbit : (a ^^^ 8).testBit 3 = true := by
    rw [Nat.testBit_xor, h3]
    decide
  simp only [List.map_cons, List.map_nil, hbit]
  simp

theorem buttonEvents_xor_bit6 (a : Nat) (h6 : a.testBit 6 = true) :
    buttonEvents a (a ^^^ 64) = [ContourEvents.ButtonUp 6] := by
  rw [buttonEvents_eq]
  have hcong : ∀ k ∈ List.range 15,
      (a.testBit k != (a ^^^ 64).testBit k) = (64 : Nat).testBit k := by
    intro k _
    rw [Nat.testBit_xor]
    cases hx : a.testBit k <;> cases hy : (64 : Nat).testBit k <;> simp [hx, hy]
  rw [List.filter_congr hcong]
  have hfil : (List.range 15).filter (fun k => (64 : Nat).testBit k) = [6] := by decide
  rw [hfil]
  have hbit : (a ^^^ 64).testBit 6 = false := by
    rw [Nat.testBit_xor, h6]
    decide
  simp only [List.map_cons, List.map_nil, hbit]
  simp

theorem buttonEvents_xor_bit15 (a : Nat) :
    buttonEvents a (a ^^^ 32768) = [] := by
  rw [buttonEvents_eq]
  have hcong : ∀ k ∈ List.range 15,
      (a.testBit k != (a ^^^ 32768).testBit k) = (32768 : Nat).testBit k := by
    intro k _
    rw [Nat.testBit_xor]
    cases hx : a.testBit k <;> cases hy : (32768 : Nat).testBit k <;> simp [hx, hy]
  rw [List.filter_congr hcong]
  have hfil : (List.range 15).filter (fun k => (32768 : Nat).testBit k) = [] := by
    decide
  rw [hfil]
  rfl

/-! ## Claim theorems -/

/-- Claim C1 (amended): the very first report `R` after startup produces no
wheel event regardless of its wheel value (the sentinel id `0xFF` is nonzero,
so the re-basing overwrite runs); and a subsequent report `S` whose wheel
differs from `R.wheel` produces exactly one wheel-direction event, provided
`R.id = 0` (for `R.id ≠ 0` the re-basing runs again on the second call and
suppresses the event, see `C1_counterexample`). -/
theorem C1_sentinel_suppression (R S : ContourHidEvent) (hw : S.wheel ≠ R.wheel) :
    (update GLOBAL_STATE R).2.filter isWheelEvent = [] ∧
    (R.id = 0 →
      (update (update GLOBAL_STATE R).1 S).2.filter isWheelEvent
        = [if wheelDelta R.wheel S.wheel < 0 then ContourEvents.WheelLeft
           else ContourEvents.WheelRight]) := by
  constructor
  · rw [filter_wheel_update]
    unfold wheelEvents
    rw [rebase_wheel_of_id_ne GLOBAL_STATE R (by decide)]
    simp
  · intro hid
    rw [filter_wheel_update]
    have hreb : rebase (update GLOBAL_STATE R).1 S = R := by
      have hst : (update GLOBAL_STATE R).1
          = ({ last := R, scroll_zoom := 0 } : SystemState) := rfl
      rw [hst, rebase_of_id_eq _ _ hid]
    rw [hreb]
    unfold wheelEvents
    rw [if_pos (Ne.symm hw)]
    split <;> rfl

/-- Claim C1, counterexample to the original statement: with first report
`R = {id:1, jog:0, wheel:5, fill:0, keys:0}` and subsequent report
`S = {id:1, jog:0, wheel:6, fill:0, keys:0}`, the wheel values differ but the
second `update` call emits no wheel-direction event, because the stored
report's id is nonzero and the re-basing overwrite runs again. -/
theorem C1_counterexample :
    (⟨1, 0, 6, 0, 0⟩ : ContourHidEvent).wheel ≠ (⟨1, 0, 5, 0, 0⟩ : ContourHidEvent).wheel ∧
    (update (update GLOBAL_STATE ⟨1, 0, 5, 0, 0⟩).1 ⟨1, 0, 6, 0, 0⟩).2.filter isWheelEvent
      = [] := by
  decide

/-- Witness for `C1_sentinel_suppression` at `R = {id:0, wheel:5}`,
`S = {id:0, wheel:6}`. -/
theorem C1_witness :
    (update GLOBAL_STATE ⟨0, 0, 5, 0, 0⟩).2.filter isWheelEvent = [] ∧
    (update (update GLOBAL_STATE ⟨0, 0, 5, 0, 0⟩).1 ⟨0, 0, 6, 0, 0⟩).2.filter isWheelEvent
      = [if wheelDelta 5 6 < 0 then ContourEvents.WheelLeft
         else ContourEvents.WheelRight] := by
  have h := C1_sentinel_suppression ⟨0, 0, 5, 0, 0⟩ ⟨0, 0, 6, 0, 0⟩ (by decide)
  exact ⟨h.1, h.2 rfl⟩

/-- Claim C2: whenever the new wheel value differs from the stored wheel value
after the re-basing adjustment, `update` emits exactly one wheel event,
`WheelLeft` when the shortest-path corrected delta is negative and
`WheelRight` otherwise; in particular stored wheel 255 and new wheel 0 give
exactly `[WheelRight]`, and stored wheel 0 and new wheel 255 give exactly
`[WheelLeft]`. -/
theorem C2_wheel_direction (s : SystemState) (new : ContourHidEvent)
    (_h1 : s.last.wheel < 256) (_h2 : new.wheel < 256)
    (hdiff : (rebase s new).wheel ≠ new.wheel) :
    ((update s new).2.filter isWheelEvent
      = [if wheelDelta (rebase s new).wheel new.wheel < 0 then ContourEvents.WheelLeft
         else ContourEvents.WheelRight]) ∧
    (update ⟨⟨0, 0, 255, 0, 0⟩, 0⟩ ⟨0, 0, 0, 0, 0⟩).2 = [ContourEvents.WheelRight] ∧
    (update ⟨⟨0, 0, 0, 0, 0⟩, 0⟩ ⟨0, 0, 255, 0, 0⟩).2 = [ContourEvents.WheelLeft] := by
  refine ⟨?_, by decide, by decide⟩
  rw [filter_wheel_update]
  unfold wheelEvents
  rw [if_pos hdiff]
  split <;> rfl

/-- Witness for `C2_wheel_direction` at the wraparound input: stored wheel
255, new wheel 0. -/
theorem C2_witness :
    (update ⟨⟨0, 0, 255, 0, 0⟩, 0⟩ ⟨0, 0, 0, 0, 0⟩).2.filter isWheelEvent
      = [if wheelDelta 255 0 < 0 then ContourEvents.WheelLeft
         else ContourEvents.WheelRight] :=
  (C2_wheel_direction ⟨⟨0, 0, 255, 0, 0⟩, 0⟩ ⟨0, 0, 0, 0, 0⟩
    (by decide) (by decide) (by decide)).1

/-- Claim C3: for each bit `k < 15`, `ButtonDown k` is emitted exactly on a
`0→1` transition of bit `k` of `keys` and `ButtonUp k` exactly on a `1→0`
transition; button events appear in increasing bit-index order; two reports
differing only in bit 15 of `keys` produce zero events; and a report setting
exactly bit 3 (all compared fields otherwise equal) yields exactly
`[ButtonDown 3]` with the stored state afterwards holding bit 3. -/
theorem C3_button_edges (s : SystemState) (new : ContourHidEvent) :
    (∀ k, k < 15 →
      ((ContourEvents.ButtonDown k ∈ (update s new).2 ↔
          s.last.keys.testBit k = false ∧ new.keys.testBit k = true) ∧
       (ContourEvents.ButtonUp k ∈ (update s new).2 ↔
          s.last.keys.testBit k = true ∧ new.keys.testBit k = false))) ∧
    List.Pairwise (· < ·) ((update s new).2.filterMap buttonIndex) ∧
    (new.jog = s.last.jog → new.wheel = s.last.wheel →
      new.keys = s.last.keys ^^^ 32768 → (update s new).2 = []) ∧
    (new.jog = s.last.jog → new.wheel = s.last.wheel →
      s.last.keys.testBit 3 = false → new.keys = s.last.keys ^^^ 8 →
      ((update s new).2 = [ContourEvents.ButtonDown 3] ∧
        (update s new).1.last.keys.testBit 3 = true)) := by
  refine ⟨?_, ?_, ?_, ?_⟩
  · intro k hk
    constructor
    · rw [down_mem_update]
      exact ⟨fun h => h.2, fun h => ⟨hk, h⟩⟩
    · rw [up_mem_update]
      exact ⟨fun h => h.2, fun h => ⟨hk, h⟩⟩
  · rw [filterMap_buttonIndex_update]
    exact pairwise_filterMap_keyEvents _ _
  · intro hjog hwheel hkeys
    have hj : jogEvents (rebase s new) new = [] := by
      unfold jogEvents
      rw [rebase_jog, hjog]
      simp
    have hwe : wheelEvents (rebase s new) new = [] :=
      wheelEvents_rebase_eq_nil s new hwheel
    have hke : keyEvents (rebase s new) new = [] := by
      unfold keyEvents
      rw [rebase_keys, hkeys]
      rw [if_pos (keys_ne_xor _ _ (by decide))]
      exact buttonEvents_xor_bit15 _
    rw [update_eq]
    simp [hj, hwe, hke]
  · intro hjog hwheel h3 hkeys
    have hj : jogEvents (rebase s new) new = [] := by
      unfold jogEvents
      rw [rebase_jog, hjog]
      simp
    have hwe : wheelEvents (rebase s new) new = [] :=
      wheelEvents_rebase_eq_nil s new hwheel
    have hke : keyEvents (rebase s new) new = [ContourEvents.ButtonDown 3] := by
      unfold keyEvents
      rw [rebase_keys, hkeys]
      rw [if_pos (keys_ne_xor _ _ (by decide))]
      exact buttonEvents_xor_bit3 _ h3
    constructor
    · rw [update_eq]
      simp [hj, hwe, hke]
    · show new.keys.testBit 3 = true
      rw [hkeys, Nat.testBit_xor, h3]
      decide

/-- Witness for `C3_button_edges`: bit 3 newly pressed from the all-zero
stored report yields exactly `[ButtonDown 3]` and the stored keys afterwards
hold bit 3. -/
theorem C3_witness :
    (update ⟨⟨0, 0, 0, 0, 0⟩, 0⟩ ⟨0, 0, 0, 0, 8⟩).2 = [ContourEvents.ButtonDown 3] ∧
    (update ⟨⟨0, 0, 0, 0, 0⟩, 0⟩ ⟨0, 0, 0, 0, 8⟩).1.last.keys.testBit 3 = true :=
  (C3_button_edges ⟨⟨0, 0, 0, 0, 0⟩, 0⟩ ⟨0, 0, 0, 0, 8⟩).2.2.2
    rfl rfl (by decide) (by decide)

/-- Claim C4: the event list of one `update` call is always the concatenation
of its jog part, wheel part and button part, in that order, with the button
part in increasing bit-index order; in particular a report with stored jog 0,
new jog 2 and button bit 6 released (all else equal) yields exactly
`[Jog 2, ButtonUp 6]`. -/
theorem C4_event_order (s : SystemState) (new : ContourHidEvent) :
    ((update s new).2
        = jogEvents (rebase s new) new ++ wheelEvents (rebase s new) new
            ++ keyEvents (rebase s new) new ∧
      (∀ e ∈ jogEvents (rebase s new) new, isJogEvent e = true) ∧
      (∀ e ∈ wheelEvents (rebase s new) new, isWheelEvent e = true) ∧
      (∀ e ∈ keyEvents (rebase s new) new, isButtonEvent e = true) ∧
      List.Pairwise (· < ·) ((keyEvents (rebase s new) new).filterMap buttonIndex)) ∧
    (s.last.jog = 0 → new.jog = 2 → new.wheel = s.last.wheel →
      s.last.keys.testBit 6 = true → new.keys = s.last.keys ^^^ 64 →
      (update s new).2 = [ContourEvents.Jog 2, ContourEvents.ButtonUp 6]) := by
  constructor
  · exact ⟨rfl, isJogEvent_eq_true_of_mem_jogEvents _ _,
      isWheelEvent_eq_true_of_mem_wheelEvents _ _,
      isButtonEvent_eq_true_of_mem_keyEvents _ _,
      pairwise_filterMap_keyEvents _ _⟩
  · intro hj0 hj2 hwheel h6 hkeys
    have hj : jogEvents (rebase s new) new = [ContourEvents.Jog 2] := by
      unfold jogEvents
      rw [rebase_jog, hj0, hj2]
      rw [if_pos (by decide)]
    have hwe : wheelEvents (rebase s new) new = [] :=
      wheelEvents_rebase_eq_nil s new hwheel
    have hke : keyEvents (rebase s new) new = [ContourEvents.ButtonUp 6] := by
      unfold keyEvents
      rw [rebase_keys, hkeys]
      rw [if_pos (keys_ne_xor _ _ (by decide))]
      exact buttonEvents_xor_bit6 _ h6
    rw [update_eq]
    simp [hj, hwe, hke]

/-- Witness for `C4_event_order`: stored report with jog 0 and bit 6 held,
new report with jog 2 and bit 6 released, gives `[Jog 2, ButtonUp 6]`. -/
theorem C4_witness :
    (update ⟨⟨0, 0, 0, 0, 64⟩, 0⟩ ⟨0, 2, 0, 0, 0⟩).2
      = [ContourEvents.Jog 2, ContourEvents.ButtonUp 6] :=
  (C4_event_order ⟨⟨0, 0, 0, 0, 64⟩, 0⟩ ⟨0, 2, 0, 0, 0⟩).2
    rfl rfl rfl (by decide) (by decide)

/-- Claim C5: decoding any report `A` against the freshly sentineled tracker
and then decoding `A` again produces no events on the second call. -/
theorem C5_idempotent_after_convergence (A : ContourHidEvent) :
    (update (update GLOBAL_STATE A).1 A).2 = [] :=
  congrArg Prod.snd (update_last_eq ⟨A, 0⟩)

/-- Claim C6: `update` emits a jog event if and only if the new jog value
differs from the stored one, and its payload is the absolute new jog value
`new.jog`. -/
theorem C6_jog_edge (s : SystemState) (new : ContourHidEvent) :
    (update s new).2.filter isJogEvent
      = if s.last.jog ≠ new.jog then [ContourEvents.Jog new.jog] else [] := by
  rw [filter_jog_update]
  unfold jogEvents
  rw [rebase_jog]

/-- Claim C7: `update` is a total function (it is a Lean `def` defined for
every tracker state and every report, however malformed) and its event list
is always well defined and bounded: at most one jog event, one wheel event
and fifteen button events. -/
theorem C7_total (s : SystemState) (new : ContourHidEvent) :
    (update s new).2.length ≤ 17 := by
  rw [update_eq]
  simp only [List.length_append]
  have h1 : (jogEvents (rebase s new) new).length ≤ 1 := by
    unfold jogEvents; split <;> simp
  have h2 : (wheelEvents (rebase s new) new).length ≤ 1 := by
    unfold wheelEvents
    split
    · split <;> simp
    · simp
  have h3 : (keyEvents (rebase s new) new).length ≤ 15 := by
    unfold keyEvents
    split
    · rw [buttonEvents_eq, List.length_map]
      calc (List.filter _ (List.range 15)).length
          ≤ (List.range 15).length := List.length_filter_le _ _
        _ = 15 := List.length_range 15
    · simp
  omega

/-- Claim C8: after `update`, the stored previous report equals the incoming
report in its entirety (every field, including `fill`), and `scroll_zoom` is
unchanged by `update` itself. -/
theorem C8_state_replacement (s : SystemState) (new : ContourHidEvent) :
    (update s new).1.last = new ∧ (update s new).1.scroll_zoom = s.scroll_zoom :=
  ⟨rfl, rfl⟩

/-- Claim C9: from any tracker state whose stored report has a nonzero id
(the sentinel included), `update` emits no wheel-direction event, whatever
the new report is: the re-basing overwrite runs on every such call. -/
theorem C9_nonzero_id_suppression (s : SystemState) (new : ContourHidEvent)
    (h : s.last.id ≠ 0) :
    (update s new).2.filter isWheelEvent = [] := by
  rw [filter_wheel_update]
  unfold wheelEvents
  rw [rebase_wheel_of_id_ne s new h]
  simp

/-- Witness for `C9_nonzero_id_suppression`: stored id 1, a new report with a
very different wheel value, still no wheel event. -/
theorem C9_witness :
    (update ⟨⟨1, 0, 5, 0, 0⟩, 0⟩ ⟨0, 3, 200, 0, 7⟩).2.filter isWheelEvent = [] :=
  C9_nonzero_id_suppression ⟨⟨1, 0, 5, 0, 0⟩, 0⟩ ⟨0, 3, 200, 0, 7⟩ (by decide)

/-- Claim C10: feeding any tracker state its own stored report back emits
zero events and leaves the whole state unchanged. -/
theorem C10_stored_report_identity (s : SystemState) :
    update s s.last = (s, []) :=
  update_last_eq s
